import Mathlib

/-!
Shallow embedding of the `simbuf` crate (src/src/lib.rs): a growable byte
buffer `Buffer { data: Vec<u8>, rpos: usize }` with append-style writes and
a read cursor consumed by the `std::io::Read` and `codec::Input` adapters.

Rust's `Vec<u8>` is modelled as a list of bytes together with its allocated
capacity; operations that can panic in Rust (`copy_from_slice` with
mismatched lengths, out-of-range slicing and indexing) return `Option`,
with `none` standing for the panic.
-/

namespace Simbuf

/-- The default pre-allocation size of `Buffer` (src/src/lib.rs line 9). -/
def DEFAULT_INITIALISATION_SIZE : Nat := 8192

/-- Model of Rust `Vec<u8>`: the stored bytes plus the allocated capacity.
Rust guarantees `cap ≥ elems.length`; a freshly built `vec![..]` literal
has capacity exactly its length. -/
structure RustVec where
  elems : List Nat
  cap : Nat
deriving DecidableEq

/-- Rust `Vec::with_capacity(n)`: no elements, capacity `n`. -/
def RustVec.with_capacity (n : Nat) : RustVec := ⟨[], n⟩

/-- Capacity after a write that needs `required` total bytes: Rust's
`RawVec` amortized growth keeps the capacity when it already suffices and
otherwise grows to `max(2 * cap, required)`, at least the minimum non-zero
capacity 8 for byte-sized elements. -/
def growCap (cap required : Nat) : Nat :=
  if required ≤ cap then cap else max 8 (max (2 * cap) required)

/-- Rust `Vec::push`. -/
def RustVec.push (v : RustVec) (b : Nat) : RustVec :=
  ⟨v.elems ++ [b], growCap v.cap (v.elems.length + 1)⟩

/-- Rust `Vec::extend_from_slice`. -/
def RustVec.extend_from_slice (v : RustVec) (bs : List Nat) : RustVec :=
  ⟨v.elems ++ bs, growCap v.cap (v.elems.length + bs.length)⟩

/-- Rust `Vec::clear`: removes all elements, keeps the capacity. -/
def RustVec.clear (v : RustVec) : RustVec := ⟨[], v.cap⟩

/-- Rust range slicing `l[a..b]`: defined only when `a ≤ b ≤ l.len()`,
otherwise the Rust code panics (`none`). -/
def sliceRange (l : List Nat) (a b : Nat) : Option (List Nat) :=
  if a ≤ b ∧ b ≤ l.length then some ((l.drop a).take (b - a)) else none

/-- Rust `<[u8]>::copy_from_slice`: panics (`none`) unless source and
destination have the same length; on success the destination holds a copy
of the source. -/
def copy_from_slice (dest src : List Nat) : Option (List Nat) :=
  if dest.length = src.length then some src else none

/-- The `Buffer` struct (src/src/lib.rs lines 33-39): the internal `Vec`
and the current read position `rpos`. The write position of the spec is
`data.elems.length`. -/
structure Buffer where
  data : RustVec
  rpos : Nat
deriving DecidableEq

/-- `Buffer::with_capacity` (line 69). -/
def Buffer.with_capacity (size : Nat) : Buffer := ⟨RustVec.with_capacity size, 0⟩

/-- `Buffer::new` (line 49): `with_capacity(DEFAULT_INITIALISATION_SIZE)`. -/
def Buffer.new : Buffer := Buffer.with_capacity DEFAULT_INITIALISATION_SIZE

/-- `Buffer::capacity` (line 82). -/
def Buffer.capacity (b : Buffer) : Nat := b.data.cap

/-- `Buffer::clear` (line 95): `data.clear(); rpos = 0`. -/
def Buffer.clear (b : Buffer) : Buffer := ⟨b.data.clear, 0⟩

/-- `Buffer::extend_from_slice` (line 110). -/
def Buffer.extend_from_slice (b : Buffer) (bs : List Nat) : Buffer :=
  ⟨b.data.extend_from_slice bs, b.rpos⟩

/-- `Buffer::as_slice` (line 138): the entire written region `data`. -/
def Buffer.as_slice (b : Buffer) : List Nat := b.data.elems

/-- `Buffer::append` (line 125): `extend_from_slice(other.as_slice())`. -/
def Buffer.append (b other : Buffer) : Buffer := b.extend_from_slice other.as_slice

/-- `Buffer::is_empty` (line 196). -/
def Buffer.is_empty (b : Buffer) : Bool := b.data.elems.isEmpty

/-- `Buffer::push` (line 207). -/
def Buffer.push (b : Buffer) (x : Nat) : Buffer := ⟨b.data.push x, b.rpos⟩

/-- `impl From<Vec<u8>> for Buffer` (line 235): wraps the vector, `rpos = 0`. -/
def Buffer.fromVec (v : RustVec) : Buffer := ⟨v, 0⟩

/-- `impl From<&[u8]> for Buffer` (line 241): `Buffer::new()` then
`extend_from_slice`. -/
def Buffer.fromSlice (bs : List Nat) : Buffer := Buffer.new.extend_from_slice bs

/-- `impl PartialEq for Buffer` (line 249): `self.data == other.data`. -/
def Buffer.beq (a b : Buffer) : Bool := a.data.elems == b.data.elems

/-- `impl PartialEq<[u8]> for Buffer` (line 256): `self.data.as_slice() == other`. -/
def Buffer.beqSlice (a : Buffer) (s : List Nat) : Bool := a.data.elems == s

/-- The logically valid byte region `storage[read_pos .. write_pos]` named
by the spec (invariant 4); with `write_pos = data.elems.length` this is
`data.elems.drop rpos`. -/
def Buffer.validRegion (b : Buffer) : List Nat := b.data.elems.drop b.rpos

/-- `impl core::ops::Index<usize> for Buffer` (line 291): `&self.data[index]`,
which panics (`none`) when the index is out of bounds. -/
def Buffer.index (b : Buffer) (i : Nat) : Option Nat :=
  if h : i < b.data.elems.length then some (b.data.elems.get ⟨i, h⟩) else none

/-- `impl std::io::Read for Buffer` (lines 323-330):
`len = min(buf.len(), data.len() - rpos)`;
`buf.copy_from_slice(&data[rpos .. rpos + len])`; `rpos += len`; `Ok(len)`.
Returns the updated buffer, the filled destination and the count, or `none`
where the Rust code panics. -/
def Buffer.read (b : Buffer) (dest : List Nat) : Option (Buffer × List Nat × Nat) :=
  let len := min dest.length (b.data.elems.length - b.rpos)
  match sliceRange b.data.elems b.rpos (b.rpos + len) with
  | none => none
  | some src =>
    match copy_from_slice dest src with
    | none => none
    | some d => some (⟨b.data, b.rpos + len⟩, d, len)

/-- `codec::Input::remaining_len` (line 334): `Ok(Some(data.len() - rpos))`. -/
def Buffer.remaining_len (b : Buffer) : Nat := b.data.elems.length - b.rpos

/-- `codec::Input::read` (lines 338-342): same copy as the `std::io::Read`
adapter but `rpos` is not advanced; the buffer is returned unchanged. -/
def Buffer.input_read (b : Buffer) (dest : List Nat) : Option (Buffer × List Nat) :=
  let len := min dest.length (b.data.elems.length - b.rpos)
  match sliceRange b.data.elems b.rpos (b.rpos + len) with
  | none => none
  | some src =>
    match copy_from_slice dest src with
    | none => none
    | some d => some (b, d)

/-- Modelled from the spec: `seek(n)` is specified in section 4.2 of the
spec but absent from src/src/lib.rs. It advances `read_pos` by `n`, clamped
so that `read_pos` never exceeds `write_pos`. -/
def Buffer.seek (b : Buffer) (n : Nat) : Buffer :=
  ⟨b.data, min (b.rpos + n) b.data.elems.length⟩

/-- The invariant `read_pos ≤ write_pos` of spec invariant 1. -/
abbrev Buffer.WF (b : Buffer) : Prop := b.rpos ≤ b.data.elems.length

/-- One write-side operation of claim C1. -/
inductive WriteOp where
  | pushW (x : Nat)
  | extendW (bs : List Nat)
  | appendW (o : Buffer)

/-- The bytes an operation contributes to the buffer. -/
def WriteOp.bytes : WriteOp → List Nat
  | .pushW x => [x]
  | .extendW bs => bs
  | .appendW o => o.as_slice

/-- Run a sequence of write operations on a buffer, in order. -/
def applyWrites (b : Buffer) : List WriteOp → Buffer
  | [] => b
  | op :: rest =>
    match op with
    | .pushW x => applyWrites (b.push x) rest
    | .extendW bs => applyWrites (b.extend_from_slice bs) rest
    | .appendW o => applyWrites (b.append o) rest

/-- Any mutating buffer operation, for the invariant-preservation claim C5;
a `readO` whose Rust original panics leaves no successor state, so the
model keeps the buffer unchanged there. -/
inductive BufOp where
  | pushO (x : Nat)
  | extendO (bs : List Nat)
  | appendO (o : Buffer)
  | clearO
  | readO (dest : List Nat)

/-- Apply one operation to a buffer. -/
def Buffer.apply (b : Buffer) : BufOp → Buffer
  | .pushO x => b.push x
  | .extendO bs => b.extend_from_slice bs
  | .appendO o => b.append o
  | .clearO => b.clear
  | .readO dest =>
    match b.read dest with
    | some (b2, _, _) => b2
    | none => b

/-- The written region after a run of write operations is the starting
region followed by the concatenation of all contributed bytes, and the
read position is untouched. -/
theorem applyWrites_as_slice (ops : List WriteOp) :
    ∀ b : Buffer, (applyWrites b ops).as_slice = b.as_slice ++ (ops.map WriteOp.bytes).flatten := by
  induction ops with
  | nil => intro b; simp [applyWrites]
  | cons op rest ih =>
    intro b
    cases op with
    | pushW x =>
      show (applyWrites (b.push x) rest).as_slice = _
      rw [ih]
      simp [Buffer.push, RustVec.push, Buffer.as_slice, WriteOp.bytes]
    | extendW bs =>
      show (applyWrites (b.extend_from_slice bs) rest).as_slice = _
      rw [ih]
      simp [Buffer.extend_from_slice, RustVec.extend_from_slice, Buffer.as_slice,
        WriteOp.bytes]
    | appendW o =>
      show (applyWrites (b.append o) rest).as_slice = _
      rw [ih]
      simp [Buffer.append, Buffer.extend_from_slice, RustVec.extend_from_slice,
        Buffer.as_slice, WriteOp.bytes]

/-- C1: starting from the empty buffer, any sequence of push,
extend_from_slice and append calls leaves the written region (as_slice)
equal to the concatenation of all contributed bytes in call order, and the
written length equal to the total number of contributed bytes. -/
theorem simbuf_c1 (ops : List WriteOp) :
    (applyWrites Buffer.new ops).as_slice = (ops.map WriteOp.bytes).flatten ∧
    (applyWrites Buffer.new ops).as_slice.length
      = (ops.map fun op => (WriteOp.bytes op).length).sum := by
  have h := applyWrites_as_slice ops Buffer.new
  have hnew : Buffer.new.as_slice = [] := rfl
  rw [hnew, List.nil_append] at h
  refine ⟨h, ?_⟩
  rw [h, List.length_flatten, List.map_map]
  rfl

/-- C2: contrary to the claim, the blocking Read adapter can fail. On the
empty buffer with a one-byte destination, len = min(1, 0) = 0 and
copy_from_slice receives a destination of length 1 and a source of length
0, so the Rust code panics (modelled as none) instead of returning Ok(0). -/
theorem simbuf_c2 : Buffer.read Buffer.new [0] = none := by decide

/-- C3 counterexample: the state with data [1] and rpos 1 is reachable
(reading one byte from From(vec![1]) yields exactly it), its valid region
storage[rpos..] equals that of the fresh empty buffer (both empty), and
yet PartialEq, which compares the full data vectors, reports the two
buffers unequal. -/
theorem simbuf_c3_cex :
    Buffer.read (Buffer.fromVec ⟨[1], 1⟩) [0] = some (⟨⟨[1], 1⟩, 1⟩, [1], 1) ∧
    Buffer.validRegion ⟨⟨[1], 1⟩, 1⟩ = Buffer.validRegion Buffer.new ∧
    Buffer.beq ⟨⟨[1], 1⟩, 1⟩ Buffer.new = false := by decide

/-- C3 amended: two buffers are equal iff their full written regions (the
entire data vectors, ignoring both read positions) are equal, and a buffer
equals a raw byte sequence iff its full written region equals that
sequence. -/
theorem simbuf_c3 (a b : Buffer) (s : List Nat) :
    (Buffer.beq a b = true ↔ a.as_slice = b.as_slice) ∧
    (Buffer.beqSlice a s = true ↔ a.as_slice = s) := by
  constructor <;> simp [Buffer.beq, Buffer.beqSlice, Buffer.as_slice]

/-- C4 counterexample: the from-Vec constructor merely wraps the vector.
For the three-byte vector of capacity 3 (exactly what vec![1, 2, 3]
allocates) the resulting capacity is 3, not at least
max(3, DEFAULT_INITIALISATION_SIZE) as the claim requires. -/
theorem simbuf_c4_cex :
    (Buffer.fromVec ⟨[1, 2, 3], 3⟩).as_slice.length = 3 ∧
    (Buffer.fromVec ⟨[1, 2, 3], 3⟩).capacity = 3 ∧
    ¬ max 3 DEFAULT_INITIALISATION_SIZE ≤ (Buffer.fromVec ⟨[1, 2, 3], 3⟩).capacity := by
  decide

/-- C4 amended: both constructors copy the input and set the written
length to the input length; the from-slice constructor yields capacity at
least max(input length, DEFAULT_INITIALISATION_SIZE), while the from-Vec
constructor keeps exactly the input vector's capacity (no padding). -/
theorem simbuf_c4 (bs : List Nat) (v : RustVec) :
    (Buffer.fromSlice bs).as_slice = bs ∧
    (Buffer.fromSlice bs).as_slice.length = bs.length ∧
    max bs.length DEFAULT_INITIALISATION_SIZE ≤ (Buffer.fromSlice bs).capacity ∧
    (Buffer.fromVec v).as_slice = v.elems ∧
    (Buffer.fromVec v).capacity = v.cap := by
  have hs : (Buffer.fromSlice bs).as_slice = bs := by
    simp [Buffer.fromSlice, Buffer.new, Buffer.with_capacity, RustVec.with_capacity,
      Buffer.extend_from_slice, RustVec.extend_from_slice, Buffer.as_slice]
  refine ⟨hs, by rw [hs], ?_, rfl, rfl⟩
  show max bs.length DEFAULT_INITIALISATION_SIZE ≤ growCap 8192 (List.length [] + bs.length)
  unfold growCap DEFAULT_INITIALISATION_SIZE
  simp only [List.length_nil, Nat.zero_add]
  split <;> omega

/-- On success, the Read adapter keeps the data vector, advances rpos by
the transferred count min(dest.length, data.length - rpos), and the new
rpos stays within the data length. -/
theorem read_some_spec (b : Buffer) (dest : List Nat) (t : Buffer × List Nat × Nat)
    (hr : b.read dest = some t) :
    t.1.data = b.data ∧
    t.1.rpos = b.rpos + min dest.length (b.data.elems.length - b.rpos) ∧
    t.1.rpos ≤ b.data.elems.length ∧
    t.2.2 = min dest.length (b.data.elems.length - b.rpos) := by
  simp only [Buffer.read] at hr
  split at hr
  · exact absurd hr (by simp)
  · rename_i src hs
    split at hr
    · exact absurd hr (by simp)
    · rename_i d hc
      have ht : t = (⟨b.data, b.rpos + min dest.length (b.data.elems.length - b.rpos)⟩,
          d, min dest.length (b.data.elems.length - b.rpos)) := by
        exact (Option.some_inj.mp hr).symm
      subst ht
      refine ⟨rfl, rfl, ?_, rfl⟩
      unfold sliceRange at hs
      split at hs
      · rename_i hcond
        exact hcond.2
      · exact absurd hs (by simp)

/-- C5: the invariant read_pos ≤ write_pos holds after every construction
(new, with_capacity, From Vec, From slice) and is preserved by every
operation (push, extend_from_slice, append, clear, the Read drain) applied
to a buffer that satisfies it. -/
theorem simbuf_c5 (b : Buffer) (op : BufOp) (k : Nat) (v : RustVec) (bs : List Nat)
    (h : b.WF) :
    (b.apply op).WF ∧ Buffer.new.WF ∧ (Buffer.with_capacity k).WF ∧
    (Buffer.fromVec v).WF ∧ (Buffer.fromSlice bs).WF := by
  refine ⟨?_, Nat.zero_le _, Nat.zero_le _, Nat.zero_le _, Nat.zero_le _⟩
  cases op with
  | pushO x =>
    show b.rpos ≤ (b.data.elems ++ [x]).length
    rw [List.length_append]
    omega
  | extendO bs2 =>
    show b.rpos ≤ (b.data.elems ++ bs2).length
    rw [List.length_append]
    omega
  | appendO o =>
    show b.rpos ≤ (b.data.elems ++ o.data.elems).length
    rw [List.length_append]
    omega
  | clearO => exact Nat.zero_le _
  | readO dest =>
    simp only [Buffer.apply]
    cases hr : b.read dest with
    | none => exact h
    | some t =>
      obtain ⟨hd, _, hle, _⟩ := read_some_spec b dest t hr
      show t.1.rpos ≤ t.1.data.elems.length
      rw [hd]
      exact hle

/-- Concrete instance for C5: the invariant is preserved when a drain with
a one-byte destination is applied to the buffer holding [1, 2] with one
byte already consumed. -/
theorem simbuf_c5_witness :
    Buffer.WF ⟨⟨[1, 2], 2⟩, 1⟩ ∧
    ((Buffer.apply ⟨⟨[1, 2], 2⟩, 1⟩ (BufOp.readO [0])).WF ∧ Buffer.new.WF ∧
      (Buffer.with_capacity 4).WF ∧ (Buffer.fromVec ⟨[7], 1⟩).WF ∧
      (Buffer.fromSlice [9]).WF) :=
  ⟨by decide, simbuf_c5 ⟨⟨[1, 2], 2⟩, 1⟩ (BufOp.readO [0]) 4 ⟨[7], 1⟩ [9] (by decide)⟩

/-- C6: constructing a buffer from a byte sequence S, through either the
from-slice or the from-Vec constructor, then taking as_slice yields
exactly S. -/
theorem simbuf_c6 (s : List Nat) (c : Nat) :
    (Buffer.fromSlice s).as_slice = s ∧ (Buffer.fromVec ⟨s, c⟩).as_slice = s := by
  constructor
  · simp [Buffer.fromSlice, Buffer.new, Buffer.with_capacity, RustVec.with_capacity,
      Buffer.extend_from_slice, RustVec.extend_from_slice, Buffer.as_slice]
  · rfl

/-- C7: clear resets the read position and the written length to 0, makes
the buffer empty, and leaves the capacity unchanged. -/
theorem simbuf_c7 (b : Buffer) :
    (b.clear).rpos = 0 ∧ (b.clear).as_slice.length = 0 ∧
    (b.clear).is_empty = true ∧ (b.clear).capacity = b.capacity := by
  exact ⟨rfl, rfl, rfl, rfl⟩

/-- C8: seek advances the read position by n, clamped at the write
position: it never exceeds the data length, it adds exactly n when n fits
in the unread region, and it lands exactly on the write position when n
exceeds the unread length; the data is untouched. -/
theorem simbuf_c8 (b : Buffer) (n : Nat) (h : b.WF) :
    (b.seek n).data = b.data ∧
    (b.seek n).rpos ≤ b.data.elems.length ∧
    (n ≤ b.data.elems.length - b.rpos → (b.seek n).rpos = b.rpos + n) ∧
    (b.data.elems.length - b.rpos < n → (b.seek n).rpos = b.data.elems.length) := by
  refine ⟨rfl, ?_, ?_, ?_⟩ <;> simp only [Buffer.seek] <;> omega

/-- Concrete instance for C8: seeking 5 bytes in the buffer holding
[1, 2, 3] with one byte consumed clamps the read position to 3. -/
theorem simbuf_c8_witness :
    Buffer.WF ⟨⟨[1, 2, 3], 3⟩, 1⟩ ∧
    ((Buffer.seek ⟨⟨[1, 2, 3], 3⟩, 1⟩ 5).data = Buffer.data ⟨⟨[1, 2, 3], 3⟩, 1⟩ ∧
     (Buffer.seek ⟨⟨[1, 2, 3], 3⟩, 1⟩ 5).rpos ≤ (Buffer.data ⟨⟨[1, 2, 3], 3⟩, 1⟩).elems.length ∧
     (5 ≤ (Buffer.data ⟨⟨[1, 2, 3], 3⟩, 1⟩).elems.length - Buffer.rpos ⟨⟨[1, 2, 3], 3⟩, 1⟩ →
       (Buffer.seek ⟨⟨[1, 2, 3], 3⟩, 1⟩ 5).rpos = Buffer.rpos ⟨⟨[1, 2, 3], 3⟩, 1⟩ + 5) ∧
     ((Buffer.data ⟨⟨[1, 2, 3], 3⟩, 1⟩).elems.length - Buffer.rpos ⟨⟨[1, 2, 3], 3⟩, 1⟩ < 5 →
       (Buffer.seek ⟨⟨[1, 2, 3], 3⟩, 1⟩ 5).rpos = (Buffer.data ⟨⟨[1, 2, 3], 3⟩, 1⟩).elems.length)) :=
  ⟨by decide, simbuf_c8 ⟨⟨[1, 2, 3], 3⟩, 1⟩ 5 (by decide)⟩

/-- C9: indexing agrees with positional lookup into the full written
region, returning the i-th byte exactly when i is below the written length
and failing (none) otherwise. -/
theorem simbuf_c9 (b : Buffer) (i : Nat) :
    b.index i = b.as_slice.get? i ∧
    ((b.index i).isSome ↔ i < b.as_slice.length) := by
  unfold Buffer.index Buffer.as_slice
  constructor
  · split
    · rename_i h
      exact (List.get?_eq_get h).symm
    · rename_i h
      exact (List.get?_eq_none.mpr (by omega)).symm
  · split <;> simp_all

/-- C10: when the destination is no longer than the unread length, the
codec Input read succeeds, copies the bytes starting at the read position,
and leaves the buffer (hence remaining_len) unchanged, so a second
identical read returns the same bytes. -/
theorem simbuf_c10 (b : Buffer) (dest : List Nat) (h : b.WF)
    (hd : dest.length ≤ b.remaining_len) :
    b.input_read dest = some (b, (b.data.elems.drop b.rpos).take dest.length) ∧
    (b.input_read dest).map (fun p => p.1.remaining_len) = some b.remaining_len ∧
    (b.input_read dest).bind (fun p => p.1.input_read dest) = b.input_read dest := by
  unfold Buffer.remaining_len at hd
  have hmin : min dest.length (b.data.elems.length - b.rpos) = dest.length := by omega
  have hslice : sliceRange b.data.elems b.rpos (b.rpos + dest.length)
      = some ((b.data.elems.drop b.rpos).take dest.length) := by
    unfold sliceRange
    rw [if_pos ⟨Nat.le_add_right _ _, by omega⟩]
    have harg : b.rpos + dest.length - b.rpos = dest.length := by omega
    rw [harg]
  have hcopy : copy_from_slice dest ((b.data.elems.drop b.rpos).take dest.length)
      = some ((b.data.elems.drop b.rpos).take dest.length) := by
    unfold copy_from_slice
    rw [if_pos]
    simp only [List.length_take, List.length_drop]
    omega
  have hmain : b.input_read dest = some (b, (b.data.elems.drop b.rpos).take dest.length) := by
    simp only [Buffer.input_read, hmin, hslice, hcopy]
  refine ⟨hmain, ?_, ?_⟩
  · rw [hmain]
    rfl
  · rw [hmain]
    simp [hmain]

/-- Concrete buffer for the C10 witness: data [4, 5, 6] with one byte
already consumed. -/
def c10b : Buffer := ⟨⟨[4, 5, 6], 3⟩, 1⟩

/-- Concrete instance for C10: a two-byte read from c10b (unread length 2)
returns [5, 6] and leaves the buffer unchanged. -/
theorem simbuf_c10_witness :
    Buffer.WF c10b ∧ ([0, 0] : List Nat).length ≤ c10b.remaining_len ∧
    (c10b.input_read [0, 0]
        = some (c10b, (c10b.data.elems.drop c10b.rpos).take ([0, 0] : List Nat).length) ∧
     (c10b.input_read [0, 0]).map (fun p => p.1.remaining_len) = some c10b.remaining_len ∧
     (c10b.input_read [0, 0]).bind (fun p => p.1.input_read [0, 0])
        = c10b.input_read [0, 0]) :=
  ⟨by decide, by decide, simbuf_c10 c10b [0, 0] (by decide) (by decide)⟩

end Simbuf
